import Mathlib

/-!
# BOM Components Validator — verification of the extraction/reconciliation core

Shallow embedding of the Python backend (`backend/api.py`,
`backend/extractors/bom_extraction.py`, `backend/extractors/sap_extraction.py`,
`backend/main.py`) in Lean 4, together with theorems settling the frozen
claims about the spec.

Modelling conventions:
* Python strings are `String` (lists of unicode code points); `str.upper` is
  modelled by `Char.toUpper` per character (the non-ASCII special casings of
  Python, e.g. ß→SS, are not exercised by any input below);
* `re` patterns are hand-compiled to a small matcher (`RItem`) whose greedy,
  leftmost-search semantics coincides with Python's on the pattern shapes the
  code uses (quantified character classes are never followed by an item that
  could consume a char of the same class, so no backtracking is observable);
* file system / PDF / Excel / network boundaries are modelled by passing the
  data the library calls would have produced as explicit arguments;
* fallible Python code (a `float(...)` call that may raise `ValueError`)
  returns `Except String _`.
-/

/-! ## Character and string helpers -/

/-- `'A' ≤ c ≤ 'Z'`. -/
def isUpperAZ (c : Char) : Bool := 'A' ≤ c && c ≤ 'Z'

/-- `'0' ≤ c ≤ '9'`. -/
def isDigit09 (c : Char) : Bool := '0' ≤ c && c ≤ '9'

/-- Characters in the class `[A-Z0-9 ]` that `_normalize_text`'s regex keeps. -/
def isAllowedChar (c : Char) : Bool := isUpperAZ c || isDigit09 c || c = ' '

/-- ASCII whitespace as recognised by Python's `str.strip()` / `\s`
(unicode whitespace beyond ASCII is not exercised by any input below). -/
def isPyWhitespace (c : Char) : Bool :=
  c = ' ' || c = '\t' || c = '\n' || c = '\r' || c = '\x0b' || c = '\x0c'

/-- `str.upper` on a character list (ASCII case mapping). -/
def pyUpperChars (l : List Char) : List Char := l.map Char.toUpper

/-- `str.upper`. -/
def pyUpper (s : String) : String := String.mk (pyUpperChars s.data)

/-- `re.sub(r"[^A-Z0-9 ]+", " ", ·)`: every maximal run of characters outside
`[A-Z0-9 ]` becomes a single space.  The flag records whether the previous
character was part of such a run. -/
def collapseBadRuns : Bool → List Char → List Char
  | _, [] => []
  | inRun, c :: rest =>
    if isAllowedChar c then c :: collapseBadRuns false rest
    else if inRun then collapseBadRuns true rest
    else ' ' :: collapseBadRuns true rest

/-- Drop the trailing characters satisfying `p`. -/
def dropTrailing (p : Char → Bool) (l : List Char) : List Char :=
  (l.reverse.dropWhile p).reverse

/-- Drop leading and trailing characters satisfying `p`. -/
def trimBy (p : Char → Bool) (l : List Char) : List Char :=
  dropTrailing p (l.dropWhile p)

/-- Python `str.strip()`. -/
def pyStrip (s : String) : String := String.mk (trimBy isPyWhitespace s.data)

/-- `api._normalize_text`: `re.sub(r"[^A-Z0-9 ]+", " ", value.upper()).strip()`. -/
def normalize_text (value : String) : String :=
  pyStrip (String.mk (collapseBadRuns false (pyUpperChars value.data)))

/-- Python substring test `needle in hay` on character lists. -/
def occursIn : List Char → List Char → Bool
  | needle, [] => needle.isEmpty
  | needle, c :: rest => needle.isPrefixOf (c :: rest) || occursIn needle rest

/-! ## The two static vocabularies and the sort-code table -/

/-- `bom_extraction.PART_ABBREV`: spreadsheet abbreviation → canonical name. -/
def PART_ABBREV : List (String × String) := [
  ("STRAINER", "Strainer"),
  ("SUC MTH", "Suction Bell Mouth"),
  ("DIFF", "Diffuser"),
  ("TAP CON", "Taper Connecting Piece"),
  ("NECK RING", "Neck Ring"),
  ("IMP WEAR RING", "Impeller Wear Ring"),
  ("IMP N/CAP", "Impeller Nose Cap"),
  ("IMP DIST SLV", "Impeller Distance Sleeve"),
  ("IMP", "Impeller"),
  ("BRG BUSH CARR", "Bearing Bush Carrier"),
  ("BRG BUSH", "Bearing Bush"),
  ("BRG HSG", "Bearing Housing Sub-Assembly"),
  ("I BRG BUSH", "Intermediate Bearing Bush"),
  ("INT BRG SLV", "Intermediate Bearing Sleeve"),
  ("INT BRG CARR", "Intermediate Bearing Carrier"),
  ("SHAFT INT", "Intermediate Shaft"),
  ("SHAFT RH TOP", "Top Shaft"),
  ("SHAFT RH", "Pump Shaft"),
  ("P BRG SLV", "Pump Bearing Sleeve"),
  ("DIST SLV", "Distance Sleeve"),
  ("SAND COLL", "Sand Collar"),
  ("GLD SLV", "Gland Sleeve"),
  ("GLD SPLIT", "Split Gland"),
  ("GLD PACK", "Gland Packing"),
  ("LOCK NUT", "Lock Nut"),
  ("SLV NUT", "Sleeve Nut"),
  ("MUF COUP", "Muff Coupling"),
  ("SPT COLL", "Split Collar"),
  ("ADJ RING", "Adjusting Ring"),
  ("WATER DEFL", "Water Deflector"),
  ("SOLE PLT", "Sole Plate"),
  ("DBMS", "Delivery Bend & Motor Stool"),
  ("ALIGN PAD", "Alignment Pad"),
  ("L STF BOX", "Loose Stuffing Box"),
  ("ST BOX LOOSE", "Loose Stuffing Box"),
  ("STF BOX", "Stuffing Box"),
  ("LOG RING", "Logging Ring"),
  ("ADPT PLT", "Adapter Plate"),
  ("R.M.PIPE TAP", "RM Pipe (Taper/Bottom)"),
  ("R.M.PIPE INT", "RM Pipe (Intermediate)"),
  ("R.M.PIPE TOP", "RM Pipe (Top)"),
  ("R.M.PIPE BOT", "RM Pipe (Bottom)"),
  ("COOLING COIL", "Cooling Coil"),
  ("RATCHET", "Ratchet")]

/-- `sap_extraction.PART_KEYS`: raw specification-document key → canonical name,
in source (dict insertion) order. -/
def PART_KEYS : List (String × String) := [
  ("Impeller", "Impeller"),
  ("Shaft", "Shaft"),
  ("Top Shaft", "Top Shaft"),
  ("Int Shaft", "Int Shaft"),
  ("Diffuser Moc", "Diffuser"),
  ("Diffuser MOC", "Diffuser"),
  ("Strainer", "Strainer"),
  ("Neck Ring", "Neck Ring"),
  ("Imp Wear Ring", "Imp Wear Ring"),
  ("Pump Brg Sleeve", "Pump Brg Sleeve"),
  ("Int Sleeve", "Int Sleeve"),
  ("Gland Sleeve", "Gland Sleeve"),
  ("Bearing bush", "Bearing Bush"),
  ("Bearing Bush", "Bearing Bush"),
  ("Bearing Bracket", "Bearing Bracket"),
  ("Suc Bell Mouth", "Suc Bell Mouth"),
  ("Delivery Bend / Tee", "Delivery Bend / Tee"),
  ("Motor Stool", "Motor Stool"),
  ("Column Pipe", "Column Pipe")]

/-- `bom_extraction.SORT_CATEGORIES`. -/
def SORT_CATEGORIES : List (String × String) := [
  ("PL BOWL", "Bowl Assembly"),
  ("PL SHAFT", "Shaft Assembly"),
  ("PL RM PIPE", "Rising Main Pipe"),
  ("PL ACC", "Accessories"),
  ("PL DB/MS", "Delivery Bend / Motor Stool")]

/-! ## Vocabulary matching (`api._detect_canonical_from_text`) -/

/-- `sorted(keys, key=len, reverse=True)`: stable sort, longest first. -/
def sortKeysByLenDesc (keys : List String) : List String :=
  keys.insertionSort (fun a b => b.length ≤ a.length)

/-- The whole-token test of the matcher:
`f" {key_norm} " in f" {text_norm} "`. -/
def paddedTokenMatch (keyNorm textNorm : String) : Bool :=
  occursIn (" " ++ keyNorm ++ " ").data (" " ++ textNorm ++ " ").data

/-- One key's test inside the matcher's loops:
`normalized.startswith(key_norm) or f" {key_norm} " in f" {normalized} "`. -/
def vocabKeyMatches (textNorm keyNorm : String) : Bool :=
  keyNorm.data.isPrefixOf textNorm.data || paddedTokenMatch keyNorm textNorm

/-- The first loop of `_detect_canonical_from_text`, generalised over the
key order it walks (the code walks `sorted(PART_ABBREV.keys(), key=len,
reverse=True)`). -/
def abbrevScan (keys : List String) (normalized : String) : Option (String × String) :=
  keys.findSome? (fun abbr =>
    if vocabKeyMatches normalized (normalize_text abbr) then
      (PART_ABBREV.lookup abbr).map (fun canon => (canon, abbr))
    else none)

/-- First loop of `_detect_canonical_from_text`: spreadsheet vocabulary,
keys sorted by length descending. -/
def detect_abbrev_pass (normalized : String) : Option (String × String) :=
  abbrevScan (sortKeysByLenDesc (PART_ABBREV.map Prod.fst)) normalized

/-- Second loop of `_detect_canonical_from_text`: specification-document
vocabulary in insertion order. -/
def detect_sap_pass (normalized : String) : Option (String × String) :=
  PART_KEYS.findSome? (fun kv =>
    if vocabKeyMatches normalized (normalize_text kv.fst) then some (kv.snd, kv.fst)
    else none)

/-- `api._detect_canonical_from_text` (`(None, None)` becomes `none`). -/
def detect_canonical_from_text (value : String) : Option (String × String) :=
  let normalized := normalize_text value
  match detect_abbrev_pass normalized with
  | some r => some r
  | none => detect_sap_pass normalized

/-- `BOMExtractor._identify_part_type`: prefix-only match of the uppercased
description against the spreadsheet abbreviations, longest key first. -/
def identify_part_type (description : String) : Option String :=
  let descUpper := pyUpper description
  (sortKeysByLenDesc (PART_ABBREV.map Prod.fst)).findSome? (fun ab =>
    if (pyUpper ab).data.isPrefixOf descUpper.data then PART_ABBREV.lookup ab
    else none)

/-! ## A small matcher for the `re` patterns the extractors use

Each pattern of `MATERIAL_PATTERNS` (bom_extraction) and of
`_extract_material_code` (sap_extraction) is hand-compiled to a list of
`RItem`s.  Quantifiers are matched greedily without backtracking; in every
pattern below a quantified class is never followed by an item able to consume
a character of the same class, so this coincides with Python's backtracking
semantics.  `group(1)` of every pattern is exactly the characters the items
consume (word boundaries are zero-width). -/

/-- Python `\w` (ASCII part; the inputs below are ASCII). -/
def isWordCharB (c : Char) : Bool :=
  isUpperAZ c || ('a' ≤ c && c ≤ 'z') || isDigit09 c || c = '_'

inductive CharCls
  | digit
  | word
  | space
deriving DecidableEq, Repr

def clsMatch : CharCls → Char → Bool
  | .digit, c => isDigit09 c
  | .word, c => isWordCharB c
  | .space, c => isPyWhitespace c

/-- One compiled regex item. -/
inductive RItem
  | lit (s : List Char)
  | litOpt (s : List Char)
  | cls (k : CharCls)
  | clsOpt (k : CharCls)
  | clsStar (k : CharCls)
  | clsPlus (k : CharCls)
  | bnd
deriving DecidableEq, Repr

def optWordAt : Option Char → Bool
  | none => false
  | some c => isWordCharB c

/-- `\b`: exactly one side is a word character. -/
def atBoundary (prev next : Option Char) : Bool := optWordAt prev != optWordAt next

def lastCharOr (s : List Char) (prev : Option Char) : Option Char :=
  match s.getLast? with
  | some c => some c
  | none => prev

/-- Match a compiled pattern at the start of `rest`; `prev` is the character
just before the match position (for `\b`).  Returns the consumed characters
and the remainder. -/
def matchItems : List RItem → Option Char → List Char → Option (List Char × List Char)
  | [], _, rest => some ([], rest)
  | .lit s :: items, prev, rest =>
    if s.isPrefixOf rest then
      (matchItems items (lastCharOr s prev) (rest.drop s.length)).map
        (fun pr => (s ++ pr.1, pr.2))
    else none
  | .litOpt s :: items, prev, rest =>
    if s.isPrefixOf rest then
      (matchItems items (lastCharOr s prev) (rest.drop s.length)).map
        (fun pr => (s ++ pr.1, pr.2))
    else matchItems items prev rest
  | .cls k :: items, _, rest =>
    match rest with
    | [] => none
    | c :: cs =>
      if clsMatch k c then
        (matchItems items (some c) cs).map (fun pr => (c :: pr.1, pr.2))
      else none
  | .clsOpt k :: items, prev, rest =>
    match rest with
    | [] => matchItems items prev []
    | c :: cs =>
      if clsMatch k c then
        (matchItems items (some c) cs).map (fun pr => (c :: pr.1, pr.2))
      else matchItems items prev (c :: cs)
  | .clsStar k :: items, prev, rest =>
    let taken := rest.takeWhile (clsMatch k)
    (matchItems items (lastCharOr taken prev) (rest.drop taken.length)).map
      (fun pr => (taken ++ pr.1, pr.2))
  | .clsPlus k :: items, prev, rest =>
    match rest with
    | [] => none
    | c :: cs =>
      if clsMatch k c then
        let taken := cs.takeWhile (clsMatch k)
        (matchItems items (lastCharOr (c :: taken) prev) (cs.drop taken.length)).map
          (fun pr => (c :: (taken ++ pr.1), pr.2))
      else none
  | .bnd :: items, prev, rest =>
    if atBoundary prev rest.head? then matchItems items prev rest else none

/-- `re.search`: try each start position left to right, first success wins;
returns `group(1)` (= the consumed characters for the patterns used here). -/
def searchFrom (items : List RItem) : Option Char → List Char → Option (List Char)
  | prev, rest =>
    match matchItems items prev rest with
    | some pr => some pr.1
    | none =>
      match rest with
      | [] => none
      | c :: cs => searchFrom items (some c) cs

def reSearch (items : List RItem) (s : String) : Option String :=
  (searchFrom items none s.data).map String.mk

/-- `bom_extraction.MATERIAL_PATTERNS`, in source order:
`(SS\d{3}\w?)`, `(CF\d+M?\b)`, `(CA\d+\w*)`, `(GGG\d+)`, `(FG\s?\d+)`,
`(WCB)`, `(LTB\d+)`, `(CIP\s+Marine)`, `(CUTL?\s*RUB(?:BER)?)`, `(NITRILE)`,
`(HTS)`, `\b(MS)\b`. -/
def MATERIAL_PATTERNS : List (List RItem) := [
  [.lit "SS".data, .cls .digit, .cls .digit, .cls .digit, .clsOpt .word],
  [.lit "CF".data, .clsPlus .digit, .litOpt "M".data, .bnd],
  [.lit "CA".data, .clsPlus .digit, .clsStar .word],
  [.lit "GGG".data, .clsPlus .digit],
  [.lit "FG".data, .clsOpt .space, .clsPlus .digit],
  [.lit "WCB".data],
  [.lit "LTB".data, .clsPlus .digit],
  [.lit "CIP".data, .clsPlus .space, .lit "Marine".data],
  [.lit "CUT".data, .litOpt "L".data, .clsStar .space, .lit "RUB".data, .litOpt "BER".data],
  [.lit "NITRILE".data],
  [.lit "HTS".data],
  [.bnd, .lit "MS".data, .bnd]]

/-- `BOMExtractor._extract_material`: first pattern that matches the
uppercased description wins; a coating suffix is appended when `+COAT`
occurs in the description and `COAT` is not already in the result. -/
def extract_material (description : String) : Option String :=
  let upper := pyUpper description
  (MATERIAL_PATTERNS.findSome? (fun pat => reSearch pat upper)).map (fun g =>
    let result := pyStrip g
    if occursIn "+COAT".data upper.data && !(occursIn "COAT".data result.data) then
      result ++ " + COATING"
    else result)

/-! ## Spreadsheet rows (`BOMExtractor._parse_row`) -/

/-- The value of one Excel cell as openpyxl yields it: a string, a number, or
empty (`None`).  A numeric cell is carried as an exact rational; floating
point rounding is immaterial to every claim below. -/
inductive CellVal
  | strV (v : String)
  | numV (q : Rat)
deriving DecidableEq, Repr

/-- `None`-able cell. -/
abbrev Cell := Option CellVal

/-- A Python float value: finite, ±infinity, or nan. -/
inductive PyFloat
  | fin (q : Rat)
  | inf
  | neginf
  | nan
deriving DecidableEq, Repr

def digitsVal (l : List Char) : Nat := l.foldl (fun a c => a * 10 + (c.toNat - 48)) 0

def allDigits (l : List Char) : Bool := l.all isDigit09

/-- Split at the first character satisfying `p` (removed); `none` when absent. -/
def splitFirst (p : Char → Bool) : List Char → Option (List Char × List Char)
  | [] => none
  | c :: rest =>
    if p c then some ([], rest)
    else (splitFirst p rest).map (fun pr => (c :: pr.1, pr.2))

/-- Mantissa of a float literal: `digits`, `digits.`, `digits.digits`,
`.digits` — at least one digit in total. -/
def parseMantissa (l : List Char) : Option Rat :=
  match splitFirst (fun c => c = '.') l with
  | none =>
    if !l.isEmpty && allDigits l then some (digitsVal l : Rat) else none
  | some (ip, fp) =>
    if allDigits ip && allDigits fp && !(ip.isEmpty && fp.isEmpty) then
      some ((digitsVal ip : Rat) + (digitsVal fp : Rat) / ((10 : Rat) ^ fp.length))
    else none

def parseSigned (l : List Char) : Bool × List Char :=
  match l with
  | '+' :: r => (false, r)
  | '-' :: r => (true, r)
  | r => (false, r)

/-- Exponent part after `e`/`E`: optional sign, then digits. -/
def parseExpPart (l : List Char) : Option Int :=
  let sb := parseSigned l
  if !sb.2.isEmpty && allDigits sb.2 then
    some (if sb.1 then -(digitsVal sb.2 : Int) else (digitsVal sb.2 : Int))
  else none

def applyExp (q : Rat) (e : Int) : Rat :=
  if 0 ≤ e then q * (10 : Rat) ^ e.toNat else q / (10 : Rat) ^ (-e).toNat

/-- The string grammar Python's `float(str)` accepts: surrounding whitespace,
optional sign, then a decimal literal with optional exponent, or
`inf`/`infinity`/`nan` case-insensitively.  (Digit-group underscores, legal
in Python, are not modelled; no input below uses them.) -/
def parsePyFloatString (s : String) : Option PyFloat :=
  let t := trimBy isPyWhitespace s.data
  let sb := parseSigned t
  let lower := sb.2.map Char.toLower
  if lower = "inf".data || lower = "infinity".data then
    some (if sb.1 then .neginf else .inf)
  else if lower = "nan".data then some .nan
  else
    let numPart :=
      match splitFirst (fun c => c = 'e' || c = 'E') sb.2 with
      | none => parseMantissa sb.2
      | some (m, ex) =>
        match parseMantissa m, parseExpPart ex with
        | some q, some e => some (applyExp q e)
        | _, _ => none
    numPart.map (fun q => .fin (if sb.1 then -q else q))

/-- Python `float(x)` for a cell value: numbers convert, strings are parsed,
anything unparsable raises `ValueError`. -/
def pyFloat : CellVal → Except String PyFloat
  | .numV q => .ok (.fin q)
  | .strV v =>
    match parsePyFloatString v with
    | some f => .ok f
    | none => .error ("could not convert string to float: " ++ v)

/-- Rendering of a numeric cell by `str(...)` (integral openpyxl cells are
ints).  No theorem below evaluates this on a non-integral rational. -/
def ratRepr (q : Rat) : String :=
  if q.den = 1 then toString q.num else toString q

/-- `str(row[i] or "")`: a falsy cell (None, empty string, zero) becomes `""`. -/
def cellStrOrEmpty (c : Cell) : String :=
  match c with
  | none => ""
  | some (.strV v) => v
  | some (.numV q) => if q = 0 then "" else ratRepr q

/-- One data row of the BOM spreadsheet, columns A..H
(`COL_ITEM_NUMBER` .. `COL_SORT_STRING`). -/
structure ExcelRow where
  item_number : Cell
  component_num : Cell
  description : Cell
  quantity : Cell
  unit : Cell
  text_1 : Cell
  text_2 : Cell
  sort_string : Cell
deriving DecidableEq, Repr

structure BomRecord where
  item_number : String
  component_number : String
  description : String
  part_type : Option String
  quantity : Option PyFloat
  unit : String
  material : Option String
  coating : Bool
  category : Option String
  usage : Option String
deriving DecidableEq, Repr

def mkBomRecord (row : ExcelRow) (qty : Option PyFloat) : BomRecord :=
  let description := pyStrip (cellStrOrEmpty row.description)
  let text1 := pyStrip (cellStrOrEmpty row.text_1)
  let text2 := pyStrip (cellStrOrEmpty row.text_2)
  let sortStr := pyStrip (cellStrOrEmpty row.sort_string)
  let usageParts := [text1, text2].filter (fun t => t != "")
  { item_number := pyStrip (cellStrOrEmpty row.item_number),
    component_number := pyStrip (cellStrOrEmpty row.component_num),
    description := description,
    part_type := identify_part_type description,
    quantity := qty,
    unit := pyStrip (cellStrOrEmpty row.unit),
    material := extract_material description,
    coating := occursIn "+COAT".data (pyUpper description).data,
    category :=
      (match SORT_CATEGORIES.lookup sortStr with
      | some c => some c
      | none => if sortStr = "" then none else some sortStr),
    usage := if usageParts.isEmpty then none else some (String.intercalate "; " usageParts) }

/-- `BOMExtractor._parse_row`: total except for
`float(qty_raw) if qty_raw is not None else None`, whose `ValueError`
surfaces as `.error`. -/
def parse_row (row : ExcelRow) : Except String BomRecord :=
  match row.quantity with
  | none => .ok (mkBomRecord row none)
  | some v => (pyFloat v).map (fun q => mkBomRecord row (some q))

/-! ## Specification-document extractor (`SAPExtractor`) -/

/-- `_extract_material_code`'s pattern list, in source order:
`(SS\s?\d{3}\w?)`, `(CF\s?\d+M?)`, `(CA\s?\d+\w*)`, `(GGG\s?\d+)`,
`(EN\s?\d+\w*)`, `\b(CI)\b`, `(M\.?S\.?)`. -/
def SAP_MATERIAL_PATTERNS : List (List RItem) := [
  [.lit "SS".data, .clsOpt .space, .cls .digit, .cls .digit, .cls .digit, .clsOpt .word],
  [.lit "CF".data, .clsOpt .space, .clsPlus .digit, .litOpt "M".data],
  [.lit "CA".data, .clsOpt .space, .clsPlus .digit, .clsStar .word],
  [.lit "GGG".data, .clsOpt .space, .clsPlus .digit],
  [.lit "EN".data, .clsOpt .space, .clsPlus .digit, .clsStar .word],
  [.bnd, .lit "CI".data, .bnd],
  [.lit "M".data, .litOpt ".".data, .lit "S".data, .litOpt ".".data]]

/-- `SAPExtractor._extract_material_code`: first pattern matching the
uppercased value wins, `group(1).strip()`. -/
def extract_material_code (value : String) : Option String :=
  let upper := pyUpper value
  (SAP_MATERIAL_PATTERNS.findSome? (fun pat => reSearch pat upper)).map pyStrip

/-- Characters `.` can match (anything but a newline). -/
def dotRun (l : List Char) : List Char := l.takeWhile (fun c => c != '\n')

def allNonNewline (l : List Char) : Bool := l.all (fun c => c != '\n')

/-- After the lazy key of pattern 1 (`(.+?)\s*\*\s*(.+)`): greedy `\s*`, a
literal `*`, greedy `\s*` (giving one character back when `(.+)` would
otherwise have nothing), then `(.+)`. -/
def pat1Tail (rest : List Char) : Option (List Char) :=
  let r1 := rest.dropWhile isPyWhitespace
  match r1 with
  | '*' :: r2 =>
    let rem := r2.dropWhile isPyWhitespace
    if rem.isEmpty then
      match r2.reverse.dropWhile (fun c => c = '\n') with
      | [] => none
      | c :: _ => some [c]
    else some (dotRun rem)
  | _ => none

def pat1Go : List Char → List Char → Option (List Char × List Char)
  | keyRev, rest =>
    match pat1Tail rest with
    | some v => some (keyRev.reverse, v)
    | none =>
      match rest with
      | [] => none
      | c :: cs => if c = '\n' then none else pat1Go (c :: keyRev) cs

/-- `re.match(r"(.+?)\s*\*\s*(.+)", line)`: the lazy `(.+?)` grows from one
character until the rest of the pattern matches. -/
def pat1Match (line : List Char) : Option (List Char × List Char) :=
  match line with
  | [] => none
  | c :: cs => if c = '\n' then none else pat1Go [c] cs

/-- After the lazy key of pattern 2 (`(.+?)\s{2,}(.+)$`): at least two
whitespace characters (greedy, giving one back when `(.+)$` would otherwise
have nothing), then `(.+)` anchored at the end of the line. -/
def pat2Tail (rest : List Char) : Option (List Char) :=
  let w := rest.takeWhile isPyWhitespace
  if w.length < 2 then none
  else
    let rem := rest.drop w.length
    if rem.isEmpty then
      match w.getLast? with
      | some c => if decide (3 ≤ w.length) && c != '\n' then some [c] else none
      | none => none
    else
      if allNonNewline rem then some rem
      else if rem.getLast? = some '\n' && allNonNewline rem.dropLast && !rem.dropLast.isEmpty then
        some rem.dropLast
      else none

def pat2Go : List Char → List Char → Option (List Char × List Char)
  | keyRev, rest =>
    match pat2Tail rest with
    | some v => some (keyRev.reverse, v)
    | none =>
      match rest with
      | [] => none
      | c :: cs => if c = '\n' then none else pat2Go (c :: keyRev) cs

/-- `re.match(r"(.+?)\s{2,}(.+)$", line)`. -/
def pat2Match (line : List Char) : Option (List Char × List Char) :=
  match line with
  | [] => none
  | c :: cs => if c = '\n' then none else pat2Go [c] cs

/-- `SAPExtractor._parse_kv_line`: asterisk grammar first, wide-whitespace
grammar second, both groups stripped; `None` when neither matches. -/
def parse_kv_line (line : String) : Option (String × String) :=
  match pat1Match line.data with
  | some kv => some (pyStrip (String.mk kv.1), pyStrip (String.mk kv.2))
  | none =>
    match pat2Match line.data with
    | some kv => some (pyStrip (String.mk kv.1), pyStrip (String.mk kv.2))
    | none => none

/-- Python-dict assignment `d[k] = v` on an association list: replace in
place, else append. -/
def dictSet (d : List (String × α)) (k : String) (v : α) : List (String × α) :=
  if (d.lookup k).isSome then d.map (fun p => if p.1 = k then (k, v) else p)
  else d ++ [(k, v)]

/-- One categorized part entry (`parts[canonical]`). -/
structure PartSpec where
  raw : String
  material : Option String
  coating : Bool
deriving DecidableEq, Repr

/-- The categorized structure `{"parts": ..., "metadata": ...}`. -/
structure SapCategorized where
  parts : List (String × PartSpec)
  metadata : List (String × String)
deriving DecidableEq, Repr

/-- One step of `SAPExtractor._categorize`'s loop. -/
def categorizeStep (acc : SapCategorized) (kv : String × String) : SapCategorized :=
  match PART_KEYS.lookup kv.1 with
  | some canonical =>
    let entry : PartSpec :=
      { raw := kv.2,
        material := extract_material_code kv.2,
        coating := occursIn "COATING".data (pyUpper kv.2).data }
    { acc with parts := dictSet acc.parts canonical entry }
  | none => { acc with metadata := dictSet acc.metadata kv.1 kv.2 }

/-- `SAPExtractor._categorize`. -/
def categorize (rawKv : List (String × String)) : SapCategorized :=
  rawKv.foldl categorizeStep { parts := [], metadata := [] }

/-- `SAPExtractor._extract_key_value_pairs`, over the stream of text lines
pdfplumber would deliver: strip each line, skip empty ones, parse, and store
into the raw dict (last write wins). -/
def extract_key_value_pairs (lines : List String) : List (String × String) :=
  lines.foldl (fun d line0 =>
    let line := pyStrip line0
    if line = "" then d
    else
      match parse_kv_line line with
      | some kv => dictSet d kv.1 kv.2
      | none => d) []

/-- `SAPExtractor.extract`, with the file-system/pdfplumber boundary made
explicit: `none` stands for "no `*SAP DATA.pdf` in the folder", `some lines`
for the text lines of the found document.  A `none` result models the empty
dict `{}` the Python returns on the two soft-failure paths. -/
def sapExtract (pdfLines : Option (List String)) : Option SapCategorized :=
  match pdfLines with
  | none => none
  | some lines =>
    let rawKv := extract_key_value_pairs lines
    if rawKv.isEmpty then none else some (categorize rawKv)

/-- The keys of the mapping `SAPExtractor.extract` returns: none for `{}`,
exactly `parts` and `metadata` otherwise. -/
def sapResultKeys : Option SapCategorized → List String
  | none => []
  | some _ => ["parts", "metadata"]

/-! ## Reconciliation (`api.compare_abbreviations`) -/

/-- The fields of one `bom.json` row that the comparison reads
(`row.get("part_type")`, `row.get("description")`). -/
structure BomRowIn where
  part_type : Option String
  description : Option String
deriving DecidableEq, Repr

/-- The field of one `cs_bom.json` row that the comparison reads. -/
structure CsRowIn where
  description : Option String
deriving DecidableEq, Repr

/-- Python truthiness of an optional string (`None` and `""` are falsy). -/
def truthyStr : Option String → Bool
  | none => false
  | some s => s != ""

/-- `o or dflt` for an optional string. -/
def pyOrStr (o : Option String) (dflt : String) : String :=
  match o with
  | none => dflt
  | some s => if s = "" then dflt else s

/-- The `defaultdict` entry being accumulated per canonical part. -/
structure RawAgg where
  in_bom : Bool
  in_sap : Bool
  in_cs : Bool
  bom_terms : List String
  sap_terms : List String
  cs_terms : List String
deriving DecidableEq, Repr

def emptyAgg : RawAgg :=
  { in_bom := false, in_sap := false, in_cs := false,
    bom_terms := [], sap_terms := [], cs_terms := [] }

/-- `set.add`: membership as the set, insertion order kept for the model
(serialisation sorts, so the order never shows). -/
def addTerm (t : String) (l : List String) : List String :=
  if t ∈ l then l else l ++ [t]

/-- `comparison[c]` access + mutation on a `defaultdict`: update in place or
create the default entry and update it. -/
def updAgg (m : List (String × RawAgg)) (c : String) (f : RawAgg → RawAgg) :
    List (String × RawAgg) :=
  if (m.lookup c).isSome then m.map (fun p => if p.1 = c then (c, f p.2) else p)
  else m ++ [(c, f emptyAgg)]

/-- The matched vocabulary key the BOM loop recomputes for display
(`_, matched_abbrev = _detect_canonical_from_text(raw_description)`). -/
def bomMatched (row : BomRowIn) : Option String :=
  (detect_canonical_from_text (pyOrStr row.description "")).map Prod.snd

/-- The canonical key a BOM row contributes (`part_type` when truthy, else
the first component of the detector's answer), `none` when falsy. -/
def bomCanonical (row : BomRowIn) : Option String :=
  let detected := detect_canonical_from_text (pyOrStr row.description "")
  let canonical := if truthyStr row.part_type then row.part_type else detected.map Prod.fst
  if truthyStr canonical then canonical else none

/-- The mutation the BOM loop applies to the entry of its canonical key:
set `in_bom`, and add the matched term when truthy. -/
def bomF (row : BomRowIn) (e : RawAgg) : RawAgg :=
  { e with in_bom := true,
           bom_terms :=
             if truthyStr (bomMatched row) then
               addTerm ((bomMatched row).getD "") e.bom_terms
             else e.bom_terms }

/-- One iteration of the comparison's BOM loop. -/
def bomStep (m : List (String × RawAgg)) (row : BomRowIn) : List (String × RawAgg) :=
  match bomCanonical row with
  | some c => updAgg m c (bomF row)
  | none => m

/-- The mutation the SAP loop applies: set `in_sap`, and add the matched
term, falling back to the part name itself. -/
def sapF (partName : String) (e : RawAgg) : RawAgg :=
  { e with in_sap := true,
           sap_terms := addTerm
             (pyOrStr ((detect_canonical_from_text partName).map Prod.snd) partName)
             e.sap_terms }

/-- One iteration of the comparison's SAP loop: every key of
`sap_data["parts"]` is taken as canonical and flagged unconditionally. -/
def sapStep (m : List (String × RawAgg)) (partName : String) : List (String × RawAgg) :=
  updAgg m partName (sapF partName)

/-- The stripped description the CS loop works on. -/
def csDesc (row : CsRowIn) : String := pyStrip (pyOrStr row.description "")

/-- The canonical key a CS row contributes. -/
def csCanonical (row : CsRowIn) : Option String :=
  match detect_canonical_from_text (csDesc row) with
  | some r => if r.fst != "" then some r.fst else none
  | none => none

/-- The mutation the CS loop applies: set `in_cs`, and add the matched term,
falling back to the stripped description. -/
def csF (row : CsRowIn) (matchedTerm : String) (e : RawAgg) : RawAgg :=
  { e with in_cs := true,
           cs_terms := addTerm (if matchedTerm != "" then matchedTerm else csDesc row) e.cs_terms }

/-- One iteration of the comparison's CS loop. -/
def csStep (m : List (String × RawAgg)) (row : CsRowIn) : List (String × RawAgg) :=
  match detect_canonical_from_text (csDesc row) with
  | some r =>
    if r.fst != "" then updAgg m r.fst (csF row r.snd)
    else m
  | none => m

/-- One serialized row of `abbrev_comparison.json`. -/
structure CompRow where
  component : String
  in_bom : Bool
  in_sap : Bool
  in_cs : Bool
  bom_terms : List String
  sap_terms : List String
  cs_terms : List String
deriving DecidableEq, Repr

/-- Python `sorted` on strings. -/
def sortStrings (l : List String) : List String :=
  l.insertionSort (fun a b => a ≤ b)

/-- The fully accumulated `comparison` map: the BOM loop, then the SAP loop,
then the CS loop, starting from the empty `defaultdict`. -/
def compareMapOf (bomRows : List BomRowIn) (sapPartNames : List String)
    (csRows : List CsRowIn) : List (String × RawAgg) :=
  csRows.foldl csStep (sapPartNames.foldl sapStep (bomRows.foldl bomStep []))

/-- One serialized row: `comparison[c]` with its three term sets sorted. -/
def buildRow (m : List (String × RawAgg)) (c : String) : CompRow :=
  { component := c,
    in_bom := ((m.lookup c).getD emptyAgg).in_bom,
    in_sap := ((m.lookup c).getD emptyAgg).in_sap,
    in_cs := ((m.lookup c).getD emptyAgg).in_cs,
    bom_terms := sortStrings ((m.lookup c).getD emptyAgg).bom_terms,
    sap_terms := sortStrings ((m.lookup c).getD emptyAgg).sap_terms,
    cs_terms := sortStrings ((m.lookup c).getD emptyAgg).cs_terms }

/-- `api.compare_abbreviations`'s pure core: three accumulation loops over the
loaded artifacts, then emission sorted by canonical name with each term set
sorted. -/
def compare_abbreviations (bomRows : List BomRowIn) (sapPartNames : List String)
    (csRows : List CsRowIn) : List CompRow :=
  (sortStrings ((compareMapOf bomRows sapPartNames csRows).map Prod.fst)).map
    (buildRow (compareMapOf bomRows sapPartNames csRows))

/-! ## Orchestrator (`main.process_folder`) -/

/-- The settlement of one submitted extractor: its class name paired with the
outcome of `extract()` — a value, or the raised exception's message. -/
abbrev TaskOutcome (V : Type) := String × Except String V

/-- `main.process_folder`'s collection loop, over the futures in the order
`as_completed` yields them (any permutation of the submitted three):
`results[name] = future.result()` on success, `results[name] = None` on a
raised exception.  The function always returns (a synchronous join). -/
def process_folder_results (completed : List (TaskOutcome V)) : List (String × Option V) :=
  completed.map (fun t =>
    ( t.1,
      match t.2 with
      | .ok v => some v
      | .error _ => none))

/-! ## Lemmas about trimming, collapsing and the normalizer (claim C6) -/

theorem dropWhile_dropWhile (p : Char → Bool) (l : List Char) :
    (l.dropWhile p).dropWhile p = l.dropWhile p := by
  induction l with
  | nil => rfl
  | cons c t ih =>
    by_cases h : p c
    · simp [List.dropWhile_cons, h, ih]
    · simp [List.dropWhile_cons, h]

theorem dropTrailing_dropTrailing (p : Char → Bool) (l : List Char) :
    dropTrailing p (dropTrailing p l) = dropTrailing p l := by
  simp [dropTrailing, dropWhile_dropWhile]

theorem dropTrailing_isPre (p : Char → Bool) (l : List Char) :
    dropTrailing p l <+: l := by
  have h := (List.dropWhile_suffix (l := l.reverse) p).reverse
  simpa [dropTrailing] using h

theorem dropWhile_eq_self_of_head (p : Char → Bool) (l : List Char)
    (h : ∀ c, l.head? = some c → p c = false) : l.dropWhile p = l := by
  cases l with
  | nil => rfl
  | cons c t => simp [List.dropWhile_cons, h c rfl]

theorem dropWhile_head_false (p : Char → Bool) (l : List Char) :
    ∀ c, (l.dropWhile p).head? = some c → p c = false := by
  induction l with
  | nil => intro c h; simp at h
  | cons a t ih =>
    intro c h
    rw [List.dropWhile_cons] at h
    by_cases ha : p a
    · rw [if_pos ha] at h
      exact ih c h
    · rw [if_neg ha] at h
      simp only [List.head?_cons, Option.some_inj] at h
      subst h
      simpa using ha

theorem trimBy_trimBy (p : Char → Bool) (l : List Char) :
    trimBy p (trimBy p l) = trimBy p l := by
  unfold trimBy
  have hdx : (l.dropWhile p).dropWhile p = l.dropWhile p := dropWhile_dropWhile p l
  have hpre : dropTrailing p (l.dropWhile p) <+: l.dropWhile p :=
    dropTrailing_isPre p (l.dropWhile p)
  have hstep : (dropTrailing p (l.dropWhile p)).dropWhile p
      = dropTrailing p (l.dropWhile p) := by
    apply dropWhile_eq_self_of_head
    intro c hc
    rcases hpre with ⟨s, hs⟩
    have hxhead : (l.dropWhile p).head? = some c := by
      rw [← hs]
      cases ht : dropTrailing p (l.dropWhile p) with
      | nil => rw [ht] at hc; simp at hc
      | cons d ds =>
        rw [ht] at hc
        simp only [List.head?_cons, Option.some_inj] at hc
        subst hc
        simp
    exact dropWhile_head_false p l c hxhead
  rw [hstep, dropTrailing_dropTrailing]

theorem mem_trimBy (p : Char → Bool) (l : List Char) (c : Char)
    (h : c ∈ trimBy p l) : c ∈ l := by
  rcases dropTrailing_isPre p (l.dropWhile p) with ⟨s, hs⟩
  have h1 : c ∈ l.dropWhile p := by
    rw [← hs]
    exact List.mem_append_left s h
  exact List.Sublist.mem h1 (List.dropWhile_sublist p)

theorem mem_collapseBadRuns (b : Bool) (l : List Char) (c : Char)
    (h : c ∈ collapseBadRuns b l) : isAllowedChar c = true := by
  induction l generalizing b with
  | nil => simp [collapseBadRuns] at h
  | cons a t ih =>
    by_cases ha : isAllowedChar a
    · rw [collapseBadRuns, if_pos ha] at h
      rcases List.mem_cons.mp h with h1 | h1
      · exact h1 ▸ ha
      · exact ih false h1
    · rw [collapseBadRuns, if_neg ha] at h
      cases b with
      | true => exact ih true (by simpa using h)
      | false =>
        rcases List.mem_cons.mp h with h1 | h1
        · subst h1; decide
        · exact ih true h1

theorem toUpper_of_allowed (c : Char) (h : isAllowedChar c = true) :
    Char.toUpper c = c := by
  simp only [isAllowedChar, isUpperAZ, isDigit09, Bool.or_eq_true, Bool.and_eq_true,
    decide_eq_true_eq] at h
  unfold Char.toUpper
  rw [if_neg]
  intro hc
  rcases h with (⟨h1, h2⟩ | ⟨h1, h2⟩) | h2
  · have hn : c.toNat ≤ 90 := Char.le_def.mp h2
    omega
  · have hn : c.toNat ≤ 57 := Char.le_def.mp h2
    omega
  · subst h2
    revert hc
    decide

theorem collapseBadRuns_id (l : List Char) (h : ∀ c ∈ l, isAllowedChar c = true) :
    collapseBadRuns false l = l := by
  induction l with
  | nil => rfl
  | cons a t ih =>
    rw [collapseBadRuns, if_pos (h a (List.mem_cons_self a t))]
    rw [ih (fun c hc => h c (List.mem_cons_of_mem a hc))]

/-- Every character surviving `normalize_text` is in `[A-Z0-9 ]`. -/
theorem normalize_text_chars (v : String) :
    ∀ c ∈ (normalize_text v).data, isAllowedChar c = true := by
  intro c hc
  exact mem_collapseBadRuns false _ c (mem_trimBy isPyWhitespace _ c hc)

/-- C6: the text normalizer is idempotent — for every input string,
`normalize(normalize(x)) = normalize(x)`, where `normalize` uppercases,
collapses every run of characters outside `[A-Z0-9 ]` to a single space,
and trims. -/
theorem C6_normalize_idempotent (x : String) :
    normalize_text (normalize_text x) = normalize_text x := by
  have hall := normalize_text_chars x
  have hup : pyUpperChars (normalize_text x).data = (normalize_text x).data := by
    unfold pyUpperChars
    rw [List.map_congr_left (fun c hc => toUpper_of_allowed c (hall c hc))]
    exact List.map_id _
  have hcol : collapseBadRuns false (normalize_text x).data = (normalize_text x).data :=
    collapseBadRuns_id _ hall
  have ht2 : (normalize_text x).data
      = trimBy isPyWhitespace (collapseBadRuns false (pyUpperChars x.data)) := rfl
  have htrim : trimBy isPyWhitespace (normalize_text x).data = (normalize_text x).data := by
    rw [ht2]
    exact trimBy_trimBy _ _
  calc normalize_text (normalize_text x)
      = String.mk (trimBy isPyWhitespace
          (collapseBadRuns false (pyUpperChars (normalize_text x).data))) := rfl
    _ = String.mk (trimBy isPyWhitespace (collapseBadRuns false (normalize_text x).data)) := by
          rw [hup]
    _ = String.mk (trimBy isPyWhitespace (normalize_text x).data) := by rw [hcol]
    _ = String.mk (normalize_text x).data := by rw [htrim]
    _ = normalize_text x := rfl

/-! ## Claims C1/C2: what the two matcher passes actually do -/

/-- C1: the claim says matching is token-bounded, so that
`_detect_canonical_from_text("IMPACT SLEEVE")` must not return the canonical
part mapped from `"IMP"`.  The code refutes it: the prefix branch
(`normalized.startswith(abbr_normalized)`) matches `"IMPACT SLEEVE"` against
`"IMP"`, so the matcher returns `("Impeller", "IMP")` — `"Impeller"` being
exactly `PART_ABBREV["IMP"]`; the prefix-only `_identify_part_type` does the
same. -/
theorem C1_counterexample :
    detect_canonical_from_text "IMPACT SLEEVE" = some ("Impeller", "IMP") ∧
    PART_ABBREV.lookup "IMP" = some "Impeller" ∧
    identify_part_type "IMPACT SLEEVE" = some "Impeller" := by decide

/-- C1 amended: the whole-token substring test alone indeed rejects the key
`"IMP"` against `"IMPACT SLEEVE"`, but the prefix test accepts it, so the
matcher returns `("Impeller", "IMP")` for `"IMPACT SLEEVE"`; for
`"ASSY IMP TOP"` the key `"IMP"` matches as a whole space-delimited token
mid-string and the matcher returns `("Impeller", "IMP")`. -/
theorem C1_amended :
    paddedTokenMatch (normalize_text "IMP") (normalize_text "IMPACT SLEEVE") = false ∧
    (normalize_text "IMP").data.isPrefixOf (normalize_text "IMPACT SLEEVE").data = true ∧
    detect_canonical_from_text "IMPACT SLEEVE" = some ("Impeller", "IMP") ∧
    paddedTokenMatch (normalize_text "IMP") (normalize_text "ASSY IMP TOP") = true ∧
    detect_canonical_from_text "ASSY IMP TOP" = some ("Impeller", "IMP") := by decide

/-- C2: the claim says a drawing (CS) record's canonical key comes from the
spreadsheet vocabulary (`PART_ABBREV`) only.  The code refutes it: for the
drawing description `"MOTOR STOOL"` the `PART_ABBREV` pass finds nothing and
the matcher falls through to the `PART_KEYS` pass, so the comparison
canonicalizes the record to `"Motor Stool"`, a key/canonical of the
specification-document vocabulary. -/
theorem C2_counterexample :
    detect_abbrev_pass (normalize_text "MOTOR STOOL") = none ∧
    detect_canonical_from_text "MOTOR STOOL" = some ("Motor Stool", "Motor Stool") ∧
    PART_KEYS.lookup "Motor Stool" = some "Motor Stool" ∧
    compare_abbreviations [] [] [{ description := some "MOTOR STOOL" }] =
      [{ component := "Motor Stool",
         in_bom := false,
         in_sap := false,
         in_cs := true,
         bom_terms := [],
         sap_terms := [],
         cs_terms := ["Motor Stool"] }] := by decide

/-- C2 amended: a drawing record's description is matched against the
spreadsheet vocabulary first; whenever that pass yields nothing, the
canonicalization used by the comparison comes from the
specification-document vocabulary (`PART_KEYS`) pass. -/
theorem C2_amended (d : String)
    (h : detect_abbrev_pass (normalize_text d) = none) :
    detect_canonical_from_text d = detect_sap_pass (normalize_text d) := by
  simp only [detect_canonical_from_text, h]

/-- C2 amended, at the concrete drawing description `"MOTOR STOOL"`. -/
theorem C2_amended_witness :
    detect_canonical_from_text "MOTOR STOOL" = detect_sap_pass (normalize_text "MOTOR STOOL") :=
  C2_amended "MOTOR STOOL" (by decide)

/-! ## Claim C7: spreadsheet end-to-end scenario A -/

/-- The spreadsheet row of scenario A: description
`"IMP WEAR RING SS410+COAT"`, quantity `2`, sort code `"PL BOWL"`. -/
def scenarioARow : ExcelRow :=
  { item_number := some (.strV "10"),
    component_num := some (.strV "100200"),
    description := some (.strV "IMP WEAR RING SS410+COAT"),
    quantity := some (.numV 2),
    unit := some (.strV "EA"),
    text_1 := none,
    text_2 := none,
    sort_string := some (.strV "PL BOWL") }

/-- C7: parsing scenario A's row yields part type `"Impeller Wear Ring"`,
material `"SS410 + COATING"`, coating `true`, category `"Bowl Assembly"` and
quantity `2.0`. -/
theorem C7_scenarioA :
    parse_row scenarioARow = Except.ok
      { item_number := "10",
        component_number := "100200",
        description := "IMP WEAR RING SS410+COAT",
        part_type := some "Impeller Wear Ring",
        quantity := some (PyFloat.fin 2),
        unit := "EA",
        material := some "SS410 + COATING",
        coating := true,
        category := some "Bowl Assembly",
        usage := none } := by rfl

/-! ## Claim C8: specification-document end-to-end scenario B -/

/-- C8: the line `"Diffuser Moc * GGG50"` parses under the asterisk grammar
into `("Diffuser Moc", "GGG50")` and categorizes into the parts section under
`"Diffuser"` with raw value `"GGG50"`, material `"GGG50"`, coating `false`,
and nothing in metadata. -/
theorem C8_scenarioB :
    parse_kv_line "Diffuser Moc * GGG50" = some ("Diffuser Moc", "GGG50") ∧
    extract_material_code "GGG50" = some "GGG50" ∧
    categorize [("Diffuser Moc", "GGG50")] =
      { parts := [("Diffuser", { raw := "GGG50", material := some "GGG50", coating := false })],
        metadata := [] } ∧
    sapExtract (some ["Diffuser Moc * GGG50"]) = some
      { parts := [("Diffuser", { raw := "GGG50", material := some "GGG50", coating := false })],
        metadata := [] } := by decide

/-! ## Claim C9: quantity parsing -/

/-- A row whose quantity cell holds the non-numeric text `"AS REQD"`. -/
def nonNumericQtyRow : ExcelRow :=
  { item_number := some (.strV "20"),
    component_num := some (.strV "100300"),
    description := some (.strV "STRAINER SS410"),
    quantity := some (.strV "AS REQD"),
    unit := some (.strV "EA"),
    text_1 := none,
    text_2 := none,
    sort_string := none }

/-- C9: the claim says quantity parsing is total and row parsing never
raises.  The code refutes it: `float(qty_raw)` is applied to any present
cell, and a non-numeric string such as `"AS REQD"` makes it raise
`ValueError`, so `_parse_row` fails. -/
theorem C9_counterexample :
    parse_row nonNumericQtyRow = Except.error "could not convert string to float: AS REQD" := by
  rfl

/-- C9 amended: quantity parsing yields `None` when the cell is absent and
the cell's value as a float when it is numeric — and row parsing succeeds in
both cases — but a present non-numeric string raises out of `_parse_row`. -/
theorem C9_amended (row : ExcelRow) :
    (row.quantity = none → ∃ rec, parse_row row = Except.ok rec ∧ rec.quantity = none) ∧
    (∀ q : Rat, row.quantity = some (CellVal.numV q) →
      ∃ rec, parse_row row = Except.ok rec ∧ rec.quantity = some (PyFloat.fin q)) := by
  constructor
  · intro h
    refine ⟨mkBomRecord row none, ?_, rfl⟩
    simp [parse_row, h]
  · intro q h
    refine ⟨mkBomRecord row (some (PyFloat.fin q)), ?_, rfl⟩
    simp [parse_row, h, pyFloat, Except.map]

/-! ## Claim C3: per-extractor failure isolation in `process_folder` -/

theorem lookup_of_mem_nodupKeys {β : Type} (l : List (String × β))
    (hn : (l.map Prod.fst).Nodup) (a : String) (b : β) (h : (a, b) ∈ l) :
    l.lookup a = some b := by
  induction l with
  | nil => cases h
  | cons p t ih =>
    rcases List.mem_cons.mp h with he | hmem
    · rw [← he]
      simp [List.lookup]
    · have hkeys : p.1 ∉ t.map Prod.fst ∧ (t.map Prod.fst).Nodup := by
        rw [List.map_cons] at hn
        exact List.nodup_cons.mp hn
      have hane : (a == p.1) = false := by
        apply beq_eq_false_iff_ne.mpr
        intro he2
        exact hkeys.1 (he2 ▸ List.mem_map_of_mem Prod.fst hmem)
      cases p with
      | mk k v =>
        simp only [List.lookup, hane]
        exact ih hkeys.2 hmem

/-- C3: run the three extractors, let exactly one raise: whatever order the
futures complete in, the result mapping binds the failing extractor's name to
`None` and each surviving extractor's name to its actual return value, and
the join returns (with one settled entry per submitted extractor).  Stated
over any task list with distinct extractor names and any completion order;
the claim's three-extractor single-failure scenario is an instance. -/
theorem C3_isolation {V : Type} (tasks completed : List (TaskOutcome V))
    (hperm : completed.Perm tasks)
    (hnames : (tasks.map Prod.fst).Nodup)
    (n : String) (r : Except String V) (hmem : (n, r) ∈ tasks) :
    (process_folder_results completed).length = tasks.length ∧
    (process_folder_results completed).lookup n = some r.toOption := by
  have hmap : (process_folder_results completed).Perm
      (process_folder_results tasks) := hperm.map _
  constructor
  · calc (process_folder_results completed).length = completed.length := by
          simp [process_folder_results]
      _ = tasks.length := hperm.length_eq
  · have hkeys : (process_folder_results completed).map Prod.fst
        = completed.map Prod.fst := by
      simp [process_folder_results, List.map_map]
    have hkeysnodup : ((process_folder_results completed).map Prod.fst).Nodup := by
      rw [hkeys]
      exact ((hperm.map Prod.fst).nodup_iff).mpr hnames
    have hmem2 : (n, r.toOption) ∈ process_folder_results completed := by
      apply hmap.mem_iff.mpr
      have h0 := List.mem_map_of_mem
        (fun t : TaskOutcome V => (t.1, match t.2 with | .ok v => some v | .error _ => none)) hmem
      cases r with
      | ok v => exact h0
      | error e => exact h0
    exact lookup_of_mem_nodupKeys _ hkeysnodup n r.toOption hmem2

/-- C3, instantiated: three extractors submitted in the order CS, BOM, SAP;
BOM raises; the futures complete in the order BOM, SAP, CS. -/
def csTaskW : TaskOutcome Nat := ("CSExtractor", Except.ok 12)

def bomTaskW : TaskOutcome Nat := ("BOMExtractor", Except.error "boom")

def sapTaskW : TaskOutcome Nat := ("SAPExtractor", Except.ok 7)

theorem C3_isolation_witness :
    (process_folder_results [bomTaskW, sapTaskW, csTaskW]).length = 3 ∧
    (process_folder_results [bomTaskW, sapTaskW, csTaskW]).lookup "BOMExtractor" = some none :=
  C3_isolation [csTaskW, bomTaskW, sapTaskW] [bomTaskW, sapTaskW, csTaskW]
    (@List.perm_append_comm _ [bomTaskW, sapTaskW] [csTaskW])
    (by decide) "BOMExtractor" (Except.error "boom")
    (List.mem_cons_of_mem _ (List.mem_cons_self _ _))

/-! ## Claim C4: longest-match invariant -/

/-- On the text `"IMP WEAR RING 410 SS"` the only spreadsheet-vocabulary keys
whose test succeeds are `"IMP WEAR RING"` and `"IMP"`. -/
theorem C4_only_two_keys_match :
    ∀ k ∈ PART_ABBREV.map Prod.fst,
      vocabKeyMatches (normalize_text "IMP WEAR RING 410 SS") (normalize_text k) = true →
      k = "IMP WEAR RING" ∨ k = "IMP" := by decide

/-- Scanning any length-descending arrangement of the spreadsheet keys over
`"IMP WEAR RING 410 SS"` answers the `"IMP WEAR RING"` entry: the only other
matching key, `"IMP"`, is strictly shorter, so it can never come first. -/
theorem abbrevScan_sorted_longest (s : List String)
    (hsort : s.Pairwise (fun a b => b.length ≤ a.length))
    (hmem : "IMP WEAR RING" ∈ s)
    (hsub : ∀ k ∈ s,
      vocabKeyMatches (normalize_text "IMP WEAR RING 410 SS") (normalize_text k) = true →
      k = "IMP WEAR RING" ∨ k = "IMP") :
    abbrevScan s (normalize_text "IMP WEAR RING 410 SS")
      = some ("Impeller Wear Ring", "IMP WEAR RING") := by
  induction s with
  | nil => cases hmem
  | cons k t ih =>
    rw [abbrevScan, List.findSome?_cons]
    by_cases hm : vocabKeyMatches (normalize_text "IMP WEAR RING 410 SS")
        (normalize_text k) = true
    · rcases hsub k (List.mem_cons_self k t) hm with rfl | rfl
      · have hlook : Option.map (fun canon => (canon, "IMP WEAR RING"))
            (List.lookup "IMP WEAR RING" PART_ABBREV)
            = some ("Impeller Wear Ring", "IMP WEAR RING") := by decide
        rw [if_pos hm, hlook]
      · exfalso
        have hmem2 : "IMP WEAR RING" ∈ t := by
          rcases List.mem_cons.mp hmem with he | h2
          · exact absurd he (by decide)
          · exact h2
        have hlen := (List.pairwise_cons.mp hsort).1 _ hmem2
        exact absurd hlen (by decide)
    · have hk : "IMP WEAR RING" ∈ t := by
        rcases List.mem_cons.mp hmem with he | h2
        · subst he
          exact absurd (by decide) hm
        · exact h2
      rw [if_neg hm]
      exact ih (List.pairwise_cons.mp hsort).2 hk
        (fun x hx hmx => hsub x (List.mem_cons_of_mem k hx) hmx)

/-- C4: for the text `"IMP WEAR RING 410 SS"`, the matcher's first pass
returns the entry for `"IMP WEAR RING"` (canonical `"Impeller Wear Ring"`),
never the shorter key `"IMP"`, whatever the insertion order of the vocabulary
mapping was (the keys are re-sorted by length descending and the first match
wins); the prefix-only `_identify_part_type` agrees. -/
theorem C4_longest_match (l : List String)
    (hperm : l.Perm (PART_ABBREV.map Prod.fst)) :
    abbrevScan (sortKeysByLenDesc l) (normalize_text "IMP WEAR RING 410 SS")
      = some ("Impeller Wear Ring", "IMP WEAR RING") ∧
    identify_part_type "IMP WEAR RING 410 SS" = some "Impeller Wear Ring" := by
  constructor
  · haveI htot : IsTotal String (fun a b => b.length ≤ a.length) :=
      ⟨fun a b => (Nat.le_total b.length a.length).imp id id⟩
    haveI htrans : IsTrans String (fun a b => b.length ≤ a.length) :=
      ⟨fun _ _ _ hab hbc => Nat.le_trans hbc hab⟩
    have hperm2 : (sortKeysByLenDesc l).Perm (PART_ABBREV.map Prod.fst) :=
      (List.perm_insertionSort _ l).trans hperm
    apply abbrevScan_sorted_longest
    · exact List.sorted_insertionSort _ l
    · exact hperm2.mem_iff.mpr (by decide)
    · intro x hx hmx
      exact C4_only_two_keys_match x (hperm2.subset hx) hmx
  · decide

/-- C4, at the source's own iteration order (the dict insertion order of
`PART_ABBREV`). -/
theorem C4_longest_match_witness :
    abbrevScan (sortKeysByLenDesc (PART_ABBREV.map Prod.fst))
      (normalize_text "IMP WEAR RING 410 SS")
      = some ("Impeller Wear Ring", "IMP WEAR RING") ∧
    identify_part_type "IMP WEAR RING 410 SS" = some "Impeller Wear Ring" :=
  C4_longest_match (PART_ABBREV.map Prod.fst) (List.Perm.refl _)

/-! ## Claim C10: shape of `SAPExtractor.extract`'s result -/

theorem lookup_isSome_iff {α : Type} (d : List (String × α)) (k : String) :
    (d.lookup k).isSome = true ↔ k ∈ d.map Prod.fst := by
  induction d with
  | nil => simp [List.lookup]
  | cons p t ih =>
    cases p with
    | mk k0 v0 =>
      by_cases h : k = k0
      · simp [List.lookup, h]
      · simp only [List.lookup, beq_eq_false_iff_ne.mpr h, List.map_cons, List.mem_cons]
        rw [ih]
        constructor
        · exact Or.inr
        · rintro (he | hm)
          · exact absurd he h
          · exact hm

theorem mem_keys_dictSet {α : Type} (d : List (String × α)) (k : String) (v : α)
    (a : String) :
    a ∈ (dictSet d k v).map Prod.fst ↔ (a ∈ d.map Prod.fst ∨ a = k) := by
  unfold dictSet
  by_cases h : (d.lookup k).isSome = true
  · rw [if_pos h]
    have hkeys : (d.map (fun p => if p.1 = k then (k, v) else p)).map Prod.fst
        = d.map Prod.fst := by
      rw [List.map_map]
      apply List.map_congr_left
      intro p _
      by_cases hp : p.1 = k
      · simp [Function.comp, hp]
      · simp [Function.comp, hp]
    rw [hkeys]
    constructor
    · exact Or.inl
    · rintro (h2 | rfl)
      · exact h2
      · exact (lookup_isSome_iff d a).mp h
  · rw [if_neg h]
    simp

theorem categorize_metadata_mem (l : List (String × String)) (acc : SapCategorized)
    (a : String) :
    a ∈ ((l.foldl categorizeStep acc).metadata.map Prod.fst) ↔
      (a ∈ acc.metadata.map Prod.fst ∨
        ((∃ v, (a, v) ∈ l) ∧ PART_KEYS.lookup a = none)) := by
  induction l generalizing acc with
  | nil => simp
  | cons kv l ih =>
    cases kv with
    | mk k v =>
      rw [List.foldl_cons, ih]
      cases hk : PART_KEYS.lookup k with
      | some c0 =>
        simp only [categorizeStep, hk]
        constructor
        · rintro (h | ⟨⟨v1, hv⟩, hnone⟩)
          · exact Or.inl h
          · exact Or.inr ⟨⟨v1, List.mem_cons_of_mem _ hv⟩, hnone⟩
        · rintro (h | ⟨⟨v1, hv⟩, hnone⟩)
          · exact Or.inl h
          · rcases List.mem_cons.mp hv with he | hm
            · exfalso
              have ha : a = k := congrArg Prod.fst he
              rw [ha, hk] at hnone
              cases hnone
            · exact Or.inr ⟨⟨v1, hm⟩, hnone⟩
      | none =>
        simp only [categorizeStep, hk]
        rw [mem_keys_dictSet]
        constructor
        · rintro ((h | rfl) | ⟨⟨v1, hv⟩, hnone⟩)
          · exact Or.inl h
          · exact Or.inr ⟨⟨v, List.mem_cons_self _ _⟩, hk⟩
          · exact Or.inr ⟨⟨v1, List.mem_cons_of_mem _ hv⟩, hnone⟩
        · rintro (h | ⟨⟨v1, hv⟩, hnone⟩)
          · exact Or.inl (Or.inl h)
          · rcases List.mem_cons.mp hv with he | hm
            · exact Or.inl (Or.inr (congrArg Prod.fst he))
            · exact Or.inr ⟨⟨v1, hm⟩, hnone⟩

theorem categorize_parts_mem (l : List (String × String)) (acc : SapCategorized)
    (c : String) :
    c ∈ ((l.foldl categorizeStep acc).parts.map Prod.fst) ↔
      (c ∈ acc.parts.map Prod.fst ∨
        ∃ k, (∃ v, (k, v) ∈ l) ∧ PART_KEYS.lookup k = some c) := by
  induction l generalizing acc with
  | nil => simp
  | cons kv l ih =>
    cases kv with
    | mk k v =>
      rw [List.foldl_cons, ih]
      cases hk : PART_KEYS.lookup k with
      | some c0 =>
        simp only [categorizeStep, hk]
        rw [mem_keys_dictSet]
        constructor
        · rintro ((h | rfl) | ⟨k1, ⟨v1, hv⟩, hsome⟩)
          · exact Or.inl h
          · exact Or.inr ⟨k, ⟨v, List.mem_cons_self _ _⟩, hk⟩
          · exact Or.inr ⟨k1, ⟨v1, List.mem_cons_of_mem _ hv⟩, hsome⟩
        · rintro (h | ⟨k1, ⟨v1, hv⟩, hsome⟩)
          · exact Or.inl (Or.inl h)
          · rcases List.mem_cons.mp hv with he | hm
            · refine Or.inl (Or.inr ?_)
              have hkk : k1 = k := congrArg Prod.fst he
              rw [hkk, hk] at hsome
              exact (Option.some_inj.mp hsome).symm
            · exact Or.inr ⟨k1, ⟨v1, hm⟩, hsome⟩
      | none =>
        simp only [categorizeStep, hk]
        constructor
        · rintro (h | ⟨k1, ⟨v1, hv⟩, hsome⟩)
          · exact Or.inl h
          · exact Or.inr ⟨k1, ⟨v1, List.mem_cons_of_mem _ hv⟩, hsome⟩
        · rintro (h | ⟨k1, ⟨v1, hv⟩, hsome⟩)
          · exact Or.inl h
          · rcases List.mem_cons.mp hv with he | hm
            · exfalso
              have hkk : k1 = k := congrArg Prod.fst he
              rw [hkk, hk] at hsome
              cases hsome
            · exact Or.inr ⟨k1, ⟨v1, hm⟩, hsome⟩

/-- C10: the specification-document extractor's result shape is inconsistent
at the boundary.  With no matching PDF, or with zero extracted key-value
pairs, `extract()` returns the empty mapping (no `parts`/`metadata` keys);
on any successful extraction it returns a mapping with exactly the keys
`parts` and `metadata`, every raw key with a `PART_KEYS` hit contributing its
canonical name to `parts`, and exactly the raw keys without a hit appearing
in `metadata`. -/
theorem C10_boundary_shape (input : Option (List String)) :
    (input = none → sapResultKeys (sapExtract input) = []) ∧
    (∀ lines, input = some lines → extract_key_value_pairs lines = [] →
      sapResultKeys (sapExtract input) = []) ∧
    (∀ lines, input = some lines → extract_key_value_pairs lines ≠ [] →
      sapResultKeys (sapExtract input) = ["parts", "metadata"] ∧
      ∃ cat, sapExtract input = some cat ∧
        ∀ k ∈ (extract_key_value_pairs lines).map Prod.fst,
          (k ∈ cat.metadata.map Prod.fst ↔ PART_KEYS.lookup k = none) ∧
          (∀ c, PART_KEYS.lookup k = some c → c ∈ cat.parts.map Prod.fst)) := by
  refine ⟨?_, ?_, ?_⟩
  · rintro rfl
    rfl
  · rintro lines rfl hempty
    simp [sapExtract, sapResultKeys, hempty]
  · rintro lines rfl hne
    have hnonempty : (extract_key_value_pairs lines).isEmpty = false := by
      cases hl : extract_key_value_pairs lines with
      | nil => exact absurd hl hne
      | cons a t => rfl
    have hres : sapExtract (some lines) = some (categorize (extract_key_value_pairs lines)) := by
      simp [sapExtract, hnonempty]
    refine ⟨by rw [hres]; rfl, categorize (extract_key_value_pairs lines), hres, ?_⟩
    intro k hk
    rcases List.mem_map.mp hk with ⟨p, hp, hfst⟩
    constructor
    · rw [categorize, categorize_metadata_mem]
      constructor
      · rintro (habs | ⟨_, hnone⟩)
        · simp at habs
        · exact hnone
      · intro hnone
        exact Or.inr ⟨⟨p.2, by rw [← hfst]; exact hp⟩, hnone⟩
    · intro c hc
      rw [categorize, categorize_parts_mem]
      exact Or.inr ⟨k, ⟨p.2, by rw [← hfst]; exact hp⟩, hc⟩

/-! ## Claim C5: invariants of the comparison table -/

theorem mem_of_lookup_eq_some {α : Type} (l : List (String × α)) (a : String) (b : α)
    (h : l.lookup a = some b) : (a, b) ∈ l := by
  induction l with
  | nil => cases h
  | cons p t ih =>
    cases p with
    | mk k v =>
      by_cases hk : a = k
      · subst hk
        simp [List.lookup] at h
        subst h
        exact List.mem_cons_self _ _
      · simp only [List.lookup, beq_eq_false_iff_ne.mpr hk] at h
        exact List.mem_cons_of_mem _ (ih h)

/-- Where the entries of `updAgg m c f` come from: untouched entries of `m`,
or `f` applied to the existing entry at `c` or to the fresh default. -/
theorem mem_updAgg (m : List (String × RawAgg)) (c : String) (f : RawAgg → RawAgg)
    (p : String × RawAgg) (hp : p ∈ updAgg m c f) :
    p ∈ m ∨ ∃ e0, (e0 = emptyAgg ∨ (c, e0) ∈ m) ∧ p.2 = f e0 := by
  unfold updAgg at hp
  by_cases h : (m.lookup c).isSome = true
  · rw [if_pos h] at hp
    rcases List.mem_map.mp hp with ⟨q, hq, hmap⟩
    by_cases hqc : q.1 = c
    · right
      refine ⟨q.2, Or.inr ?_, ?_⟩
      · rw [← hqc]
        exact hq
      · rw [← hmap]
        simp [hqc]
    · left
      rw [← hmap]
      simp only [hqc, if_false]
      exact hq
  · rw [if_neg h] at hp
    rcases List.mem_append.mp hp with h1 | h1
    · exact Or.inl h1
    · right
      refine ⟨emptyAgg, Or.inl rfl, ?_⟩
      have : p = (c, f emptyAgg) := by simpa using h1
      rw [this]

theorem keys_updAgg (m : List (String × RawAgg)) (c : String) (f : RawAgg → RawAgg)
    (a : String) :
    a ∈ (updAgg m c f).map Prod.fst ↔ (a ∈ m.map Prod.fst ∨ a = c) := by
  unfold updAgg
  by_cases h : (m.lookup c).isSome = true
  · rw [if_pos h]
    have hkeys : (m.map (fun p => if p.1 = c then (c, f p.2) else p)).map Prod.fst
        = m.map Prod.fst := by
      rw [List.map_map]
      apply List.map_congr_left
      intro p _
      by_cases hp : p.1 = c
      · simp [Function.comp, hp]
      · simp [Function.comp, hp]
    rw [hkeys]
    constructor
    · exact Or.inl
    · rintro (h2 | rfl)
      · exact h2
      · exact (lookup_isSome_iff m a).mp h
  · rw [if_neg h]
    simp

theorem nodup_keys_updAgg (m : List (String × RawAgg)) (c : String) (f : RawAgg → RawAgg)
    (h : (m.map Prod.fst).Nodup) : ((updAgg m c f).map Prod.fst).Nodup := by
  unfold updAgg
  by_cases hl : (m.lookup c).isSome = true
  · rw [if_pos hl]
    have hkeys : (m.map (fun p => if p.1 = c then (c, f p.2) else p)).map Prod.fst
        = m.map Prod.fst := by
      rw [List.map_map]
      apply List.map_congr_left
      intro p _
      by_cases hp : p.1 = c
      · simp [Function.comp, hp]
      · simp [Function.comp, hp]
    rw [hkeys]
    exact h
  · rw [if_neg hl]
    rw [List.map_append]
    rw [List.nodup_append]
    refine ⟨h, by simp, ?_⟩
    intro a ha hb
    simp at hb
    rw [hb] at ha
    exact hl ((lookup_isSome_iff m c).mpr ha)

/-- The invariant carried by every entry of the accumulating map: at least
one presence flag is set, and the three term sets hold no duplicates. -/
def entryInv (e : RawAgg) : Prop :=
  (e.in_bom = true ∨ e.in_sap = true ∨ e.in_cs = true) ∧
  e.bom_terms.Nodup ∧ e.sap_terms.Nodup ∧ e.cs_terms.Nodup

theorem addTerm_nodup (t : String) (l : List String) (h : l.Nodup) :
    (addTerm t l).Nodup := by
  unfold addTerm
  by_cases hm : t ∈ l
  · rw [if_pos hm]
    exact h
  · rw [if_neg hm]
    rw [List.nodup_append]
    refine ⟨h, by simp, ?_⟩
    intro a ha hb
    simp at hb
    rw [hb] at ha
    exact hm ha

theorem updAgg_entryInv (m : List (String × RawAgg)) (c : String) (f : RawAgg → RawAgg)
    (hm : ∀ p ∈ m, entryInv p.2)
    (hflag : ∀ e, (f e).in_bom = true ∨ (f e).in_sap = true ∨ (f e).in_cs = true)
    (hnd : ∀ e, e.bom_terms.Nodup ∧ e.sap_terms.Nodup ∧ e.cs_terms.Nodup →
      (f e).bom_terms.Nodup ∧ (f e).sap_terms.Nodup ∧ (f e).cs_terms.Nodup) :
    ∀ p ∈ updAgg m c f, entryInv p.2 := by
  intro p hp
  rcases mem_updAgg m c f p hp with h1 | ⟨e0, he0, hpe⟩
  · exact hm p h1
  · have hnd2 : e0.bom_terms.Nodup ∧ e0.sap_terms.Nodup ∧ e0.cs_terms.Nodup := by
      rcases he0 with rfl | hmem
      · exact ⟨List.nodup_nil, List.nodup_nil, List.nodup_nil⟩
      · exact (hm (c, e0) hmem).2
    constructor
    · rw [hpe]
      exact hflag e0
    · rw [hpe]
      exact hnd e0 hnd2

theorem foldl_preserves {σ α : Type} (step : σ → α → σ) (P : σ → Prop)
    (l : List α) (s : σ) (h : P s) (hstep : ∀ s a, P s → P (step s a)) :
    P (l.foldl step s) := by
  induction l generalizing s with
  | nil => exact h
  | cons a t ih => exact ih (step s a) (hstep s a h)

/-- The entry invariant holds for the fully accumulated map of
`compare_abbreviations`. -/
theorem compareMap_entryInv (bomRows : List BomRowIn) (sapPartNames : List String)
    (csRows : List CsRowIn) :
    ∀ p ∈ (csRows.foldl csStep
        (sapPartNames.foldl sapStep (bomRows.foldl bomStep []))), entryInv p.2 := by
  apply foldl_preserves csStep (fun m => ∀ p ∈ m, entryInv p.2)
  · apply foldl_preserves sapStep (fun m => ∀ p ∈ m, entryInv p.2)
    · apply foldl_preserves bomStep (fun m => ∀ p ∈ m, entryInv p.2)
      · intro p hp
        cases hp
      · intro m row hmP
        unfold bomStep
        cases hb : bomCanonical row with
        | none => exact hmP
        | some c =>
          apply updAgg_entryInv _ _ _ hmP
          · intro e
            exact Or.inl rfl
          · intro e he
            refine ⟨?_, he.2.1, he.2.2⟩
            by_cases ht : truthyStr (bomMatched row) = true
            · simp only [bomF, ht, if_true]
              exact addTerm_nodup _ _ he.1
            · simp only [Bool.not_eq_true] at ht
              simp only [bomF, ht, Bool.false_eq_true, if_false]
              exact he.1
    · intro m partName hmP
      unfold sapStep
      apply updAgg_entryInv _ _ _ hmP
      · intro e
        exact Or.inr (Or.inl rfl)
      · intro e he
        exact ⟨he.1, addTerm_nodup _ _ he.2.1, he.2.2⟩
  · intro m row hmP
    unfold csStep
    cases hd : detect_canonical_from_text (csDesc row) with
    | none => exact hmP
    | some r =>
      dsimp only
      by_cases hr : (r.fst != "") = true
      · rw [if_pos hr]
        apply updAgg_entryInv _ _ _ hmP
        · intro e
          exact Or.inr (Or.inr rfl)
        · intro e he
          exact ⟨he.1, he.2.1, addTerm_nodup _ _ he.2.2⟩
      · rw [if_neg hr]
        exact hmP

theorem keys_foldl_bom (rows : List BomRowIn) (m : List (String × RawAgg)) (a : String) :
    a ∈ ((rows.foldl bomStep m).map Prod.fst) ↔
      (a ∈ m.map Prod.fst ∨ ∃ row ∈ rows, bomCanonical row = some a) := by
  induction rows generalizing m with
  | nil => simp
  | cons row rows ih =>
    rw [List.foldl_cons, ih]
    cases hb : bomCanonical row with
    | none =>
      have hstep : bomStep m row = m := by
        unfold bomStep
        rw [hb]
      rw [hstep]
      constructor
      · rintro (h | ⟨r1, hr1, hc1⟩)
        · exact Or.inl h
        · exact Or.inr ⟨r1, List.mem_cons_of_mem _ hr1, hc1⟩
      · rintro (h | ⟨r1, hr1, hc1⟩)
        · exact Or.inl h
        · rcases List.mem_cons.mp hr1 with rfl | hm2
          · rw [hb] at hc1
            cases hc1
          · exact Or.inr ⟨r1, hm2, hc1⟩
    | some c =>
      have hstep : bomStep m row = updAgg m c (bomF row) := by
        unfold bomStep
        rw [hb]
      rw [hstep]
      constructor
      · rintro (h | ⟨r1, hr1, hc1⟩)
        · rcases (keys_updAgg m c (bomF row) a).mp h with h2 | rfl
          · exact Or.inl h2
          · exact Or.inr ⟨row, List.mem_cons_self _ _, hb⟩
        · exact Or.inr ⟨r1, List.mem_cons_of_mem _ hr1, hc1⟩
      · rintro (h | ⟨r1, hr1, hc1⟩)
        · exact Or.inl ((keys_updAgg m c (bomF row) a).mpr (Or.inl h))
        · rcases List.mem_cons.mp hr1 with he | hm2
          · rw [he] at hc1
            rw [hb] at hc1
            have hac : a = c := (Option.some_inj.mp hc1).symm
            exact Or.inl ((keys_updAgg m c (bomF row) a).mpr (Or.inr hac))
          · exact Or.inr ⟨r1, hm2, hc1⟩

theorem keys_foldl_sap (names : List String) (m : List (String × RawAgg)) (a : String) :
    a ∈ ((names.foldl sapStep m).map Prod.fst) ↔
      (a ∈ m.map Prod.fst ∨ a ∈ names) := by
  induction names generalizing m with
  | nil => simp
  | cons nm names ih =>
    rw [List.foldl_cons, ih]
    have hstep : sapStep m nm = updAgg m nm (sapF nm) := rfl
    rw [hstep]
    constructor
    · rintro (h | h)
      · rcases (keys_updAgg m nm (sapF nm) a).mp h with h2 | rfl
        · exact Or.inl h2
        · exact Or.inr (List.mem_cons_self _ _)
      · exact Or.inr (List.mem_cons_of_mem _ h)
    · rintro (h | h)
      · exact Or.inl ((keys_updAgg m nm (sapF nm) a).mpr (Or.inl h))
      · rcases List.mem_cons.mp h with rfl | hm2
        · exact Or.inl ((keys_updAgg m a (sapF a) a).mpr (Or.inr rfl))
        · exact Or.inr hm2

theorem keys_foldl_cs (rows : List CsRowIn) (m : List (String × RawAgg)) (a : String) :
    a ∈ ((rows.foldl csStep m).map Prod.fst) ↔
      (a ∈ m.map Prod.fst ∨ ∃ row ∈ rows, csCanonical row = some a) := by
  induction rows generalizing m with
  | nil => simp
  | cons row rows ih =>
    rw [List.foldl_cons, ih]
    cases hd : detect_canonical_from_text (csDesc row) with
    | none =>
      have hstep : csStep m row = m := by
        unfold csStep
        rw [hd]
      have hcan : csCanonical row = none := by
        unfold csCanonical
        rw [hd]
      rw [hstep]
      constructor
      · rintro (h | ⟨r1, hr1, hc1⟩)
        · exact Or.inl h
        · exact Or.inr ⟨r1, List.mem_cons_of_mem _ hr1, hc1⟩
      · rintro (h | ⟨r1, hr1, hc1⟩)
        · exact Or.inl h
        · rcases List.mem_cons.mp hr1 with rfl | hm2
          · rw [hcan] at hc1
            cases hc1
          · exact Or.inr ⟨r1, hm2, hc1⟩
    | some r =>
      by_cases hr : (r.fst != "") = true
      · have hstep : csStep m row = updAgg m r.fst (csF row r.snd) := by
          unfold csStep
          rw [hd]
          dsimp only
          rw [if_pos hr]
        have hcan : csCanonical row = some r.fst := by
          unfold csCanonical
          rw [hd]
          dsimp only
          rw [if_pos hr]
        rw [hstep]
        constructor
        · rintro (h | ⟨r1, hr1, hc1⟩)
          · rcases (keys_updAgg m r.fst (csF row r.snd) a).mp h with h2 | rfl
            · exact Or.inl h2
            · exact Or.inr ⟨row, List.mem_cons_self _ _, hcan⟩
          · exact Or.inr ⟨r1, List.mem_cons_of_mem _ hr1, hc1⟩
        · rintro (h | ⟨r1, hr1, hc1⟩)
          · exact Or.inl ((keys_updAgg m r.fst (csF row r.snd) a).mpr (Or.inl h))
          · rcases List.mem_cons.mp hr1 with he | hm2
            · rw [he] at hc1
              rw [hcan] at hc1
              have hac : a = r.fst := (Option.some_inj.mp hc1).symm
              exact Or.inl ((keys_updAgg m r.fst (csF row r.snd) a).mpr (Or.inr hac))
            · exact Or.inr ⟨r1, hm2, hc1⟩
      · have hstep : csStep m row = m := by
          unfold csStep
          rw [hd]
          dsimp only
          rw [if_neg hr]
        have hcan : csCanonical row = none := by
          unfold csCanonical
          rw [hd]
          dsimp only
          rw [if_neg hr]
        rw [hstep]
        constructor
        · rintro (h | ⟨r1, hr1, hc1⟩)
          · exact Or.inl h
          · exact Or.inr ⟨r1, List.mem_cons_of_mem _ hr1, hc1⟩
        · rintro (h | ⟨r1, hr1, hc1⟩)
          · exact Or.inl h
          · rcases List.mem_cons.mp hr1 with rfl | hm2
            · rw [hcan] at hc1
              cases hc1
            · exact Or.inr ⟨r1, hm2, hc1⟩

/-- The accumulated map's keys never repeat. -/
theorem compareMap_nodup_keys (bomRows : List BomRowIn) (sapPartNames : List String)
    (csRows : List CsRowIn) :
    (((csRows.foldl csStep
        (sapPartNames.foldl sapStep (bomRows.foldl bomStep []))).map Prod.fst)).Nodup := by
  apply foldl_preserves csStep (fun m => ((m.map Prod.fst)).Nodup)
  · apply foldl_preserves sapStep (fun m => ((m.map Prod.fst)).Nodup)
    · apply foldl_preserves bomStep (fun m => ((m.map Prod.fst)).Nodup)
      · exact List.nodup_nil
      · intro m row hm
        unfold bomStep
        cases bomCanonical row with
        | none => exact hm
        | some c => exact nodup_keys_updAgg m c (bomF row) hm
    · intro m nm hm
      exact nodup_keys_updAgg m nm (sapF nm) hm
  · intro m row hm
    unfold csStep
    cases detect_canonical_from_text (csDesc row) with
    | none => exact hm
    | some r =>
      dsimp only
      by_cases hr : (r.fst != "") = true
      · rw [if_pos hr]
        exact nodup_keys_updAgg m r.fst (csF row r.snd) hm
      · rw [if_neg hr]
        exact hm

theorem sortStrings_strict (l : List String) (h : l.Nodup) :
    (sortStrings l).Pairwise (fun a b => a < b) := by
  have hs : (sortStrings l).Pairwise (fun a b : String => a ≤ b) :=
    List.sorted_insertionSort _ l
  have hn : (sortStrings l).Nodup := ((List.perm_insertionSort _ l).nodup_iff).mpr h
  exact (hs.and hn).imp (fun hab => lt_of_le_of_ne hab.1 hab.2)

/-- Every emitted row is `buildRow` at a key of the map, whose entry the
lookup finds. -/
theorem compare_row_source (bomRows : List BomRowIn) (sapPartNames : List String)
    (csRows : List CsRowIn) (e : CompRow)
    (he : e ∈ compare_abbreviations bomRows sapPartNames csRows) :
    ∃ cn e0, (compareMapOf bomRows sapPartNames csRows).lookup cn = some e0 ∧
      (cn, e0) ∈ compareMapOf bomRows sapPartNames csRows ∧
      e = buildRow (compareMapOf bomRows sapPartNames csRows) cn := by
  rcases List.mem_map.mp he with ⟨cn, hcn, hbe⟩
  have hcnk : cn ∈ (compareMapOf bomRows sapPartNames csRows).map Prod.fst :=
    (List.perm_insertionSort _ _).mem_iff.mp hcn
  have hsome := (lookup_isSome_iff (compareMapOf bomRows sapPartNames csRows) cn).mpr hcnk
  rcases Option.isSome_iff_exists.mp hsome with ⟨e0, he0⟩
  exact ⟨cn, e0, he0,
    mem_of_lookup_eq_some (compareMapOf bomRows sapPartNames csRows) cn e0 he0, hbe.symm⟩

/-- C5: every emitted `ComparisonEntry` carries at least one source-presence
flag; the rows come out sorted strictly ascending by canonical-part name; the
three term lists of every row are strictly ascending (hence deduplicated);
and an entry for a canonical part exists iff at least one of the three loops
produced a hit for it. -/
theorem C5_comparison_invariants (bomRows : List BomRowIn) (sapPartNames : List String)
    (csRows : List CsRowIn) :
    (∀ e ∈ compare_abbreviations bomRows sapPartNames csRows,
        e.in_bom = true ∨ e.in_sap = true ∨ e.in_cs = true) ∧
    (compare_abbreviations bomRows sapPartNames csRows).Pairwise
        (fun a b => a.component < b.component) ∧
    (∀ e ∈ compare_abbreviations bomRows sapPartNames csRows,
        e.bom_terms.Pairwise (fun a b : String => a < b) ∧
        e.sap_terms.Pairwise (fun a b : String => a < b) ∧
        e.cs_terms.Pairwise (fun a b : String => a < b)) ∧
    (∀ c, (∃ e ∈ compare_abbreviations bomRows sapPartNames csRows, e.component = c) ↔
        ((∃ row ∈ bomRows, bomCanonical row = some c) ∨ c ∈ sapPartNames ∨
         (∃ row ∈ csRows, csCanonical row = some c))) := by
  have hInv : ∀ p ∈ compareMapOf bomRows sapPartNames csRows, entryInv p.2 :=
    compareMap_entryInv bomRows sapPartNames csRows
  have hNd : ((compareMapOf bomRows sapPartNames csRows).map Prod.fst).Nodup :=
    compareMap_nodup_keys bomRows sapPartNames csRows
  have hkeys_iff : ∀ a, a ∈ (compareMapOf bomRows sapPartNames csRows).map Prod.fst ↔
      ((∃ row ∈ bomRows, bomCanonical row = some a) ∨ a ∈ sapPartNames ∨
       (∃ row ∈ csRows, csCanonical row = some a)) := by
    intro a
    unfold compareMapOf
    rw [keys_foldl_cs, keys_foldl_sap, keys_foldl_bom]
    simp only [List.map_nil, List.not_mem_nil, false_or, or_assoc]
  refine ⟨?_, ?_, ?_, ?_⟩
  · intro e he
    rcases compare_row_source bomRows sapPartNames csRows e he with ⟨cn, e0, hlk, hmem, hbe⟩
    have hi := hInv (cn, e0) hmem
    rw [hbe]
    simp only [buildRow, hlk, Option.getD_some]
    exact hi.1
  · unfold compare_abbreviations
    rw [List.pairwise_map]
    exact sortStrings_strict _ hNd
  · intro e he
    rcases compare_row_source bomRows sapPartNames csRows e he with ⟨cn, e0, hlk, hmem, hbe⟩
    have hi := hInv (cn, e0) hmem
    rw [hbe]
    simp only [buildRow, hlk, Option.getD_some]
    exact ⟨sortStrings_strict _ hi.2.1, sortStrings_strict _ hi.2.2.1,
      sortStrings_strict _ hi.2.2.2⟩
  · intro c
    constructor
    · rintro ⟨e, he, hc⟩
      rcases compare_row_source bomRows sapPartNames csRows e he with ⟨cn, e0, hlk, hmem, hbe⟩
      have hcc : cn = c := by
        rw [hbe] at hc
        exact hc
      rw [← hcc]
      exact (hkeys_iff cn).mp (hcc ▸ (hcc.symm ▸ List.mem_map_of_mem Prod.fst hmem))
    · intro h
      have hck : c ∈ (compareMapOf bomRows sapPartNames csRows).map Prod.fst :=
        (hkeys_iff c).mpr h
      have hcs : c ∈ sortStrings ((compareMapOf bomRows sapPartNames csRows).map Prod.fst) :=
        (List.perm_insertionSort _ _).mem_iff.mpr hck
      exact ⟨buildRow (compareMapOf bomRows sapPartNames csRows) c,
        List.mem_map_of_mem _ hcs, rfl⟩
